import Mathlib

/-!
Shallow embedding of the research-paper analysis pipeline
(query refiner, prompt templates, LLM gateway, response extractor,
output formatter) and proofs about it.

Strings are modelled as `List Char` with ASCII semantics for the
character classes used by the Python source (`str.lower`, `str.strip`,
`str.split`, the regex classes `\s` and `\w`, `str.isdigit`).
-/

namespace RgAi

/-- Python `\s` / `str.strip` / `str.split` whitespace set (ASCII). -/
def pyIsSpace (c : Char) : Bool :=
  c = ' ' || c = '\t' || c = '\n' || c = '\r' || c = '\x0b' || c = '\x0c'

/-- Python `str.lower` on a single character (ASCII): `Char.toLower`
maps `A`-`Z` to `a`-`z` and fixes everything else. -/
def pyToLower (c : Char) : Char := Char.toLower c

/-- Python regex `\w` (ASCII): alphanumeric or underscore. -/
def pyIsWordChar (c : Char) : Bool := c.isAlphanum || c = '_'

theorem char_toNat_ofNat_valid (n : Nat) (h : n.isValidChar) :
    (Char.ofNat n).toNat = n := by
  rw [Char.ofNat, dif_pos h]
  simp [Char.ofNatAux, Char.toNat, UInt32.toNat]

theorem pyToLower_idem (c : Char) : pyToLower (pyToLower c) = pyToLower c := by
  simp only [pyToLower, Char.toLower]
  by_cases h : c.toNat ≥ 65 ∧ c.toNat ≤ 90
  · rw [if_pos h, char_toNat_ofNat_valid _ (Or.inl (by omega)),
      if_neg (by omega)]
  · rw [if_neg h, if_neg h]

theorem pyToLower_space : pyToLower ' ' = ' ' := by decide

theorem pyIsWordChar_not_space (c : Char) (h : pyIsWordChar c = true) :
    pyIsSpace c = false := by
  cases hc : pyIsSpace c
  · rfl
  · exfalso
    simp only [pyIsSpace, Bool.or_eq_true, decide_eq_true_eq] at hc
    rcases hc with ((((rfl | rfl) | rfl) | rfl) | rfl) | rfl <;>
      exact absurd h (by decide)

/-- Python `str.strip()`: remove leading and trailing whitespace. -/
def pyStrip (s : List Char) : List Char :=
  ((s.dropWhile pyIsSpace).reverse.dropWhile pyIsSpace).reverse

/-- Worker for `collapseWs`; the flag records whether the previously
emitted character was part of a whitespace run. -/
def collapseWsAux : Bool → List Char → List Char
  | _, [] => []
  | prevWs, c :: cs =>
    if pyIsSpace c then
      if prevWs then collapseWsAux true cs
      else ' ' :: collapseWsAux true cs
    else c :: collapseWsAux false cs

/-- Python `re.sub(r'\s+', ' ', s)`: replace each maximal run of
whitespace by a single space. -/
def collapseWs (s : List Char) : List Char := collapseWsAux false s

/-- Python `re.sub(r'[^\w\s\-]', ' ', s)`: replace each character that
is not a word character, whitespace, or hyphen by a space. -/
def subNonWord (s : List Char) : List Char :=
  s.map fun c => if pyIsWordChar c || pyIsSpace c || c = '-' then c else ' '

/-- Worker for `pySplit`; `cur` holds the reversed current word. -/
def pySplitAux (cur : List Char) : List Char → List (List Char)
  | [] => if cur.isEmpty then [] else [cur.reverse]
  | c :: cs =>
    if pyIsSpace c then
      if cur.isEmpty then pySplitAux [] cs
      else cur.reverse :: pySplitAux [] cs
    else pySplitAux (c :: cur) cs

/-- Python `str.split()` with no argument: split on whitespace runs,
dropping empty pieces. -/
def pySplit (s : List Char) : List (List Char) := pySplitAux [] s

theorem pySplit_nil : pySplit [] = [] := rfl

theorem pySplit_cons_space {c : Char} (h : pyIsSpace c = true) (cs : List Char) :
    pySplit (c :: cs) = pySplit cs := by
  simp [pySplit, pySplitAux, h]

theorem pySplitAux_ne_nil (cur : List Char) (h : cur ≠ []) (cs : List Char) :
    pySplitAux cur cs =
      (cur.reverse ++ cs.takeWhile (fun d => !pyIsSpace d)) ::
        pySplit (cs.dropWhile (fun d => !pyIsSpace d)) := by
  induction cs generalizing cur with
  | nil =>
    simp [pySplitAux, pySplit, List.isEmpty_iff, h]
  | cons d cs ih =>
    by_cases hd : pyIsSpace d = true
    · simp [pySplitAux, hd, List.isEmpty_iff, h, List.takeWhile_cons,
        List.dropWhile_cons, pySplit]
    · have hd' : pyIsSpace d = false := by simp_all
      simp only [pySplitAux, hd', if_false, Bool.false_eq_true]
      rw [ih (d :: cur) (by simp)]
      simp [List.takeWhile_cons, List.dropWhile_cons, hd']

theorem pySplit_cons_word {c : Char} (h : pyIsSpace c = false) (cs : List Char) :
    pySplit (c :: cs) =
      (c :: cs.takeWhile (fun d => !pyIsSpace d)) ::
        pySplit (cs.dropWhile (fun d => !pyIsSpace d)) := by
  simp only [pySplit, pySplitAux, h, if_false, Bool.false_eq_true,
    List.isEmpty_nil]
  rw [pySplitAux_ne_nil [c] (by simp) cs]
  simp [pySplit]

/-- Python `str.split(sep)` for a single-character separator: split at
every occurrence of `sep`, keeping empty pieces. -/
def splitOnChar (sep : Char) : List Char → List (List Char)
  | [] => [[]]
  | c :: cs =>
    if c = sep then [] :: splitOnChar sep cs
    else
      match splitOnChar sep cs with
      | [] => [[c]]
      | h :: t => (c :: h) :: t

/-- Python `sep.join(xs)`. -/
def pyJoin (sep : List Char) : List (List Char) → List Char
  | [] => []
  | [w] => w
  | w :: ws => w ++ sep ++ pyJoin sep ws

theorem pyJoin_cons_cons (sep w v : List Char) (ws : List (List Char)) :
    pyJoin sep (w :: v :: ws) = w ++ sep ++ pyJoin sep (v :: ws) := rfl

theorem pyJoin_append_single (sep : List Char) (ws : List (List Char))
    (hws : ws ≠ []) (v : List Char) :
    pyJoin sep (ws ++ [v]) = pyJoin sep ws ++ sep ++ v := by
  induction ws with
  | nil => exact absurd rfl hws
  | cons w ws ih =>
    cases ws with
    | nil => rfl
    | cons u ws =>
      have ih' := ih (by simp)
      rw [List.cons_append] at ih'
      show pyJoin sep (w :: ((u :: ws) ++ [v])) = _
      rw [show w :: ((u :: ws) ++ [v]) = w :: u :: (ws ++ [v]) from rfl,
        pyJoin_cons_cons, ih', pyJoin_cons_cons]
      simp [List.append_assoc]

/-! ### Generic helper lemmas -/

theorem takeWhile_append_all (p : Char → Bool) (a : List Char)
    (h : ∀ c ∈ a, p c = true) (b : List Char) :
    (a ++ b).takeWhile p = a ++ b.takeWhile p := by
  induction a with
  | nil => simp
  | cons c a ih =>
    simp [List.cons_append, List.takeWhile_cons, h c (by simp),
      ih fun d hd => h d (by simp [hd])]

theorem dropWhile_append_all (p : Char → Bool) (a : List Char)
    (h : ∀ c ∈ a, p c = true) (b : List Char) :
    (a ++ b).dropWhile p = b.dropWhile p := by
  induction a with
  | nil => simp
  | cons c a ih =>
    simp [List.cons_append, List.dropWhile_cons, h c (by simp),
      ih fun d hd => h d (by simp [hd])]

theorem takeWhile_all (p : Char → Bool) (a : List Char)
    (h : ∀ c ∈ a, p c = true) : a.takeWhile p = a := by
  have := takeWhile_append_all p a h []
  simpa using this

theorem dropWhile_all (p : Char → Bool) (a : List Char)
    (h : ∀ c ∈ a, p c = true) : a.dropWhile p = [] := by
  induction a with
  | nil => rfl
  | cons c a ih =>
    simp [List.dropWhile_cons, h c (by simp), ih fun d hd => h d (by simp [hd])]

theorem dropWhile_all_neg (p : Char → Bool) (a : List Char)
    (h : ∀ c ∈ a, p c = false) : a.dropWhile p = a := by
  cases a with
  | nil => rfl
  | cons c t => simp [List.dropWhile_cons, h c (by simp)]

/-! ### Properties of `pySplit` -/

theorem pySplit_words_aux :
    ∀ n (s : List Char), s.length ≤ n → ∀ w ∈ pySplit s,
      w ≠ [] ∧ ∀ c ∈ w, pyIsSpace c = false ∧ c ∈ s := by
  intro n
  induction n with
  | zero =>
    intro s hs w hw
    have : s = [] := List.length_eq_zero.mp (Nat.le_zero.mp hs)
    subst this
    simp [pySplit_nil] at hw
  | succ n ih =>
    intro s hs w hw
    match s with
    | [] => simp [pySplit_nil] at hw
    | c :: cs =>
      have hlen : cs.length ≤ n := by
        simpa using Nat.le_of_succ_le_succ hs
      by_cases hc : pyIsSpace c = true
      · rw [pySplit_cons_space hc] at hw
        obtain ⟨h1, h2⟩ := ih cs hlen w hw
        exact ⟨h1, fun d hd => ⟨(h2 d hd).1, List.mem_cons_of_mem _ (h2 d hd).2⟩⟩
      · have hc' : pyIsSpace c = false := by simp_all
        rw [pySplit_cons_word hc'] at hw
        rcases List.mem_cons.mp hw with rfl | hw
        · refine ⟨by simp, fun d hd => ?_⟩
          rcases List.mem_cons.mp hd with rfl | hd
          · exact ⟨hc', by simp⟩
          · have hp := List.mem_takeWhile_imp hd
            have : pyIsSpace d = false := by simpa using hp
            exact ⟨this,
              List.mem_cons_of_mem _ ((List.takeWhile_sublist _).mem hd)⟩
        · have hdlen : (cs.dropWhile (fun d => !pyIsSpace d)).length ≤ n :=
            Nat.le_trans ((List.dropWhile_sublist _).length_le) hlen
          obtain ⟨h1, h2⟩ := ih _ hdlen w hw
          exact ⟨h1, fun d hd => ⟨(h2 d hd).1,
            List.mem_cons_of_mem _ ((List.dropWhile_sublist _).mem (h2 d hd).2)⟩⟩

theorem pySplit_words (s : List Char) :
    ∀ w ∈ pySplit s, w ≠ [] ∧ ∀ c ∈ w, pyIsSpace c = false ∧ c ∈ s :=
  pySplit_words_aux s.length s (Nat.le_refl _)

/-- Splitting a single-space join of non-empty whitespace-free words
recovers exactly the words. -/
theorem pySplit_pyJoin (ws : List (List Char))
    (h : ∀ w ∈ ws, w ≠ [] ∧ ∀ c ∈ w, pyIsSpace c = false) :
    pySplit (pyJoin [' '] ws) = ws := by
  induction ws with
  | nil => rfl
  | cons w ws ih =>
    obtain ⟨hw, hwc⟩ := h w (by simp)
    match w, hw with
    | c :: w', _ =>
      have hc : pyIsSpace c = false := hwc c (by simp)
      have hw' : ∀ d ∈ w', (fun d => !pyIsSpace d) d = true := by
        intro d hd
        simp [hwc d (by simp [hd])]
      cases ws with
      | nil =>
        show pySplit (c :: w') = [c :: w']
        rw [pySplit_cons_word hc, takeWhile_all _ _ hw',
          dropWhile_all _ _ hw', pySplit_nil]
      | cons v vs =>
        have h1 : pyJoin [' '] ((c :: w') :: v :: vs) =
            c :: (w' ++ (' ' :: pyJoin [' '] (v :: vs))) := by
          rw [pyJoin_cons_cons, List.append_assoc]
          rfl
        rw [h1, pySplit_cons_word hc,
          takeWhile_append_all _ _ hw', dropWhile_append_all _ _ hw']
        have h2 : (' ' :: pyJoin [' '] (v :: vs)).takeWhile
            (fun d => !pyIsSpace d) = [] := by
          simp [List.takeWhile_cons, pyIsSpace]
        have h3 : (' ' :: pyJoin [' '] (v :: vs)).dropWhile
            (fun d => !pyIsSpace d) = ' ' :: pyJoin [' '] (v :: vs) := by
          simp [List.dropWhile_cons, pyIsSpace]
        rw [h2, h3, pySplit_cons_space (by decide),
          ih fun u hu => h u (by simp [hu])]
        simp

/-! ### Membership lemmas for the normalization stages -/

theorem mem_collapseWsAux {c : Char} :
    ∀ (b : Bool) (s : List Char), c ∈ collapseWsAux b s → c = ' ' ∨ c ∈ s := by
  intro b s
  induction s generalizing b with
  | nil => intro h; simp [collapseWsAux] at h
  | cons d t ih =>
    intro h
    by_cases hd : pyIsSpace d = true
    · simp only [collapseWsAux, hd, if_true] at h
      cases b with
      | true =>
        rcases ih true h with h' | h'
        · exact Or.inl h'
        · exact Or.inr (by simp [h'])
      | false =>
        rcases List.mem_cons.mp h with rfl | h'
        · exact Or.inl rfl
        · rcases ih true h' with h'' | h''
          · exact Or.inl h''
          · exact Or.inr (by simp [h''])
    · have hd' : pyIsSpace d = false := by simp_all
      simp only [collapseWsAux, hd', Bool.false_eq_true, if_false] at h
      rcases List.mem_cons.mp h with rfl | h'
      · exact Or.inr (by simp)
      · rcases ih false h' with h'' | h''
        · exact Or.inl h''
        · exact Or.inr (by simp [h''])

theorem mem_subNonWord {c : Char} {s : List Char} (h : c ∈ subNonWord s) :
    (pyIsWordChar c || pyIsSpace c || c = '-') = true ∧ (c = ' ' ∨ c ∈ s) := by
  simp only [subNonWord, List.mem_map] at h
  obtain ⟨d, hd, hdc⟩ := h
  by_cases hcl : (pyIsWordChar d || pyIsSpace d || decide (d = '-')) = true
  · rw [if_pos hcl] at hdc
    subst hdc
    exact ⟨by simpa using hcl, Or.inr hd⟩
  · rw [if_neg hcl] at hdc
    subst hdc
    exact ⟨by decide, Or.inl rfl⟩

theorem mem_pyStrip {c : Char} {s : List Char} (h : c ∈ pyStrip s) : c ∈ s := by
  simp only [pyStrip, List.mem_reverse] at h
  have h1 := (List.dropWhile_sublist pyIsSpace).mem h
  rw [List.mem_reverse] at h1
  exact (List.dropWhile_sublist pyIsSpace).mem h1

theorem mem_pyJoin_space {c : Char} :
    ∀ ws : List (List Char), c ∈ pyJoin [' '] ws → c = ' ' ∨ ∃ w ∈ ws, c ∈ w := by
  intro ws
  induction ws with
  | nil => intro h; simp [pyJoin] at h
  | cons w ws ih =>
    intro h
    cases ws with
    | nil =>
      exact Or.inr ⟨w, by simp, h⟩
    | cons v vs =>
      rw [pyJoin_cons_cons] at h
      rcases List.mem_append.mp h with h' | h'
      · rcases List.mem_append.mp h' with h'' | h''
        · exact Or.inr ⟨w, by simp, h''⟩
        · exact Or.inl (by simpa using h'')
      · rcases ih h' with h'' | ⟨u, hu, hcu⟩
        · exact Or.inl h''
        · exact Or.inr ⟨u, by simp [hu], hcu⟩

/-! ### No-op lemmas for the normalization stages -/

theorem map_pyToLower_eq_self {s : List Char} (h : ∀ c ∈ s, pyToLower c = c) :
    s.map pyToLower = s := by
  rw [List.map_congr_left h]
  simp

theorem subNonWord_eq_self {s : List Char}
    (h : ∀ c ∈ s, (pyIsWordChar c || pyIsSpace c || c = '-') = true) :
    subNonWord s = s := by
  rw [subNonWord, List.map_congr_left fun c hc => if_pos (by simpa using h c hc)]
  simp

theorem dropWhile_eq_self_of_head (p : Char → Bool) (l : List Char)
    (h : ∀ c, l.head? = some c → p c = false) : l.dropWhile p = l := by
  cases l with
  | nil => rfl
  | cons c t => simp [List.dropWhile_cons, h c rfl]

theorem pyStrip_eq_self {s : List Char}
    (h1 : ∀ c, s.head? = some c → pyIsSpace c = false)
    (h2 : ∀ c, s.getLast? = some c → pyIsSpace c = false) :
    pyStrip s = s := by
  rw [pyStrip, dropWhile_eq_self_of_head _ _ h1,
    dropWhile_eq_self_of_head _ _ (by simpa using h2), List.reverse_reverse]

theorem collapseWsAux_eq_self {s : List Char}
    (hsp : ∀ c ∈ s, pyIsSpace c = true → c = ' ')
    (hch : s.Chain' fun a b => pyIsSpace a = false ∨ pyIsSpace b = false) :
    ∀ b : Bool, (b = true → ∀ c, s.head? = some c → pyIsSpace c = false) →
      collapseWsAux b s = s := by
  induction s with
  | nil => intro b _; rfl
  | cons d t ih =>
    intro b hb
    obtain ⟨hhd, hct⟩ := List.chain'_cons'.mp hch
    by_cases hd : pyIsSpace d = true
    · have hb' : b = false := by
        cases b with
        | false => rfl
        | true => exact absurd hd (by simp [hb rfl d rfl])
      subst hb'
      have hd' : d = ' ' := hsp d (by simp) hd
      have hth : ∀ c, t.head? = some c → pyIsSpace c = false := by
        intro c hc
        rcases hhd c hc with h' | h'
        · exact absurd hd (by simp [h'])
        · exact h'
      simp only [collapseWsAux, hd, if_true]
      rw [ih (fun c hc h' => hsp c (by simp [hc]) h') hct true fun _ => hth, hd']
      simp
    · have hd' : pyIsSpace d = false := by simp_all
      simp only [collapseWsAux, hd', Bool.false_eq_true, if_false]
      rw [ih (fun c hc h' => hsp c (by simp [hc]) h') hct false (by simp)]

theorem collapseWs_eq_self {s : List Char}
    (hsp : ∀ c ∈ s, pyIsSpace c = true → c = ' ')
    (hch : s.Chain' fun a b => pyIsSpace a = false ∨ pyIsSpace b = false) :
    collapseWs s = s :=
  collapseWsAux_eq_self hsp hch false (by simp)

/-! ### Head, last and chain facts about single-space joins -/

theorem pyJoin_ne_nil {ws : List (List Char)} (hne : ws ≠ [])
    (h : ∀ w ∈ ws, w ≠ []) : pyJoin [' '] ws ≠ [] := by
  match ws with
  | [w] =>
    exact h w (by simp)
  | w :: v :: vs =>
    rw [pyJoin_cons_cons]
    match w, h w (by simp) with
    | c :: w', _ => simp

theorem head?_pyJoin_cons (w : List Char) (ws : List (List Char)) (hw : w ≠ []) :
    (pyJoin [' '] (w :: ws)).head? = w.head? := by
  cases ws with
  | nil => rfl
  | cons v vs =>
    rw [pyJoin_cons_cons]
    match w, hw with
    | c :: w', _ => rfl

theorem getLast?_pyJoin_mem :
    ∀ ws : List (List Char), ws ≠ [] → (∀ w ∈ ws, w ≠ []) →
      ∃ c, (pyJoin [' '] ws).getLast? = some c ∧ ∃ w ∈ ws, c ∈ w := by
  intro ws
  induction ws with
  | nil => intro h; exact absurd rfl h
  | cons w ws ih =>
    intro _ h
    cases ws with
    | nil =>
      have hw : w ≠ [] := h w (by simp)
      refine ⟨w.getLast hw, ?_, w, by simp, List.getLast_mem hw⟩
      exact List.getLast?_eq_getLast_of_ne_nil hw
    | cons v vs =>
      obtain ⟨c, hc1, u, hu, hcu⟩ := ih (by simp) fun u hu => h u (by simp [hu])
      have hT : pyJoin [' '] (v :: vs) ≠ [] :=
        pyJoin_ne_nil (by simp) fun u hu => h u (by simp [hu])
      refine ⟨c, ?_, u, by simp [hu], hcu⟩
      rw [pyJoin_cons_cons, List.append_assoc,
        List.getLast?_append_of_ne_nil _ (by simp [hT]),
        List.getLast?_append_of_ne_nil _ hT, hc1]

theorem chain'_of_all_nonspace {l : List Char}
    (h : ∀ c ∈ l, pyIsSpace c = false) :
    l.Chain' fun a b => pyIsSpace a = false ∨ pyIsSpace b = false := by
  induction l with
  | nil => exact List.chain'_nil
  | cons c t ih =>
    refine List.chain'_cons'.mpr ⟨fun y _ => Or.inl (h c (by simp)), ?_⟩
    exact ih fun d hd => h d (by simp [hd])

theorem chain'_pyJoin :
    ∀ ws : List (List Char), (∀ w ∈ ws, w ≠ [] ∧ ∀ c ∈ w, pyIsSpace c = false) →
      (pyJoin [' '] ws).Chain' fun a b => pyIsSpace a = false ∨ pyIsSpace b = false := by
  intro ws
  induction ws with
  | nil => intro _; exact List.chain'_nil
  | cons w ws ih =>
    intro h
    cases ws with
    | nil => exact chain'_of_all_nonspace (h w (by simp)).2
    | cons v vs =>
      rw [pyJoin_cons_cons, List.append_assoc, List.singleton_append]
      refine List.chain'_append.mpr ⟨chain'_of_all_nonspace (h w (by simp)).2, ?_, ?_⟩
      · refine List.chain'_cons'.mpr ⟨?_, ih fun u hu => h u (by simp [hu])⟩
        intro y hy
        rw [head?_pyJoin_cons v vs (h v (by simp)).1] at hy
        refine Or.inr ((h v (by simp)).2 y ?_)
        exact List.mem_of_mem_head? hy
      · intro x hx y _
        exact Or.inl ((h w (by simp)).2 x (List.mem_of_mem_getLast? hx))

/-! ### Query refiner (`src/services/query_refiner.py`)

`QueryRefiner.refine` lowercases and strips the query, collapses
whitespace runs, replaces characters outside `[\w\s\-]` by spaces,
tokenizes, removes stop words when there are more than 5 tokens,
rejoins with single spaces, and finally appends the literal token
`research` when no academic keyword occurs as a substring and the
token count is below 8.  The `try`/`except` fallback never triggers in
this embedding because every step is total. -/

/-- `QueryRefiner.stop_words`. -/
def stopWords : List (List Char) :=
  ["a".toList, "an".toList, "the".toList, "is".toList, "are".toList,
   "was".toList, "were".toList, "be".toList, "been".toList, "what".toList,
   "how".toList, "where".toList, "when".toList, "why".toList, "which".toList]

/-- Keywords of `_enhance_academic_context`. -/
def academicKeywords : List (List Char) :=
  ["research".toList, "study".toList, "paper".toList, "analysis".toList,
   "survey".toList]

/-- Python substring test `needle in haystack`. -/
def containsSub (n h : List Char) : Bool := decide (n <:+: h)

/-- `has_academic_keyword` in `_enhance_academic_context`:
`any(keyword in query for keyword in academic_keywords)`. -/
def hasAcademicKeyword (q : List Char) : Bool :=
  academicKeywords.any fun k => containsSub k q

/-- `QueryRefiner._enhance_academic_context`. -/
def enhanceAcademic (q : List Char) : List Char :=
  if !hasAcademicKeyword q && decide ((pySplit q).length < 8) then
    q ++ " research".toList
  else q

/-- The tokenization performed by `QueryRefiner.refine` before stop-word
filtering: lowercase, strip, collapse whitespace, replace special
characters, split on whitespace. -/
def refineWords (q : List Char) : List (List Char) :=
  pySplit (subNonWord (collapseWs (pyStrip (q.map pyToLower))))

/-- The conditional stop-word removal of `QueryRefiner.refine`: only
applied when there are more than 5 tokens, and a token is kept when it
is not a stop word or is longer than 3 characters. -/
def filterStop (ws : List (List Char)) : List (List Char) :=
  if ws.length > 5 then
    ws.filter fun w => !stopWords.contains w || decide (w.length > 3)
  else ws

/-- `QueryRefiner.refine` (the non-fallback path, which is the only
reachable one since every step is total). -/
def refine (q : List Char) : List Char :=
  enhanceAcademic (pyJoin [' '] (filterStop (refineWords q)))

/-! ### Well-formed token lists and the re-tokenization roundtrip -/

/-- A token produced by the refiner: non-empty, characters from the
kept class `[\w\-]`, already lowercase. -/
def WfW (ws : List (List Char)) : Prop :=
  ∀ w ∈ ws, w ≠ [] ∧ ∀ c ∈ w, (pyIsWordChar c || c = '-') = true ∧ pyToLower c = c

theorem good_not_space {c : Char} (h : (pyIsWordChar c || c = '-') = true) :
    pyIsSpace c = false := by
  rcases Bool.or_eq_true_iff.mp h with h' | h'
  · exact pyIsWordChar_not_space c h'
  · have : c = '-' := by simpa using h'
    subst this
    decide

theorem refineWords_wf (q : List Char) : WfW (refineWords q) := by
  intro w hw
  obtain ⟨hne, hch⟩ := pySplit_words _ w hw
  refine ⟨hne, fun c hc => ?_⟩
  obtain ⟨hsp, hmem⟩ := hch c hc
  obtain ⟨hclass, hmem2⟩ := mem_subNonWord hmem
  constructor
  · rcases Bool.or_eq_true_iff.mp hclass with h' | h'
    · rcases Bool.or_eq_true_iff.mp h' with h'' | h''
      · simp [h'']
      · rw [h''] at hsp
        exact absurd hsp (by simp)
    · simp [h']
  · rcases hmem2 with rfl | hmem2
    · exact pyToLower_space
    · rcases mem_collapseWsAux _ _ hmem2 with rfl | hmem3
      · exact pyToLower_space
      · have hmem4 := mem_pyStrip hmem3
        obtain ⟨d, _, rfl⟩ := List.mem_map.mp hmem4
        exact pyToLower_idem d

/-- Feeding a single-space join of well-formed tokens back through the
refiner's tokenization recovers exactly the tokens. -/
theorem refineWords_pyJoin (ws : List (List Char)) (h : WfW ws) :
    refineWords (pyJoin [' '] ws) = ws := by
  cases hws : ws with
  | nil => rfl
  | cons w₀ rest =>
    subst hws
    set j := pyJoin [' '] (w₀ :: rest) with hj
    have hwords : ∀ w ∈ w₀ :: rest, w ≠ [] ∧ ∀ c ∈ w, pyIsSpace c = false :=
      fun w hw => ⟨(h w hw).1, fun c hc => good_not_space ((h w hw).2 c hc).1⟩
    have hjchars : ∀ c ∈ j, c = ' ' ∨
        ((pyIsWordChar c || c = '-') = true ∧ pyToLower c = c) := by
      intro c hc
      rcases mem_pyJoin_space _ hc with h' | ⟨w, hw, hcw⟩
      · exact Or.inl h'
      · exact Or.inr ((h w hw).2 c hcw)
    have hlower : j.map pyToLower = j := by
      refine map_pyToLower_eq_self fun c hc => ?_
      rcases hjchars c hc with rfl | ⟨_, h2⟩
      · exact pyToLower_space
      · exact h2
    have hstrip : pyStrip j = j := by
      refine pyStrip_eq_self (fun c hc => ?_) (fun c hc => ?_)
      · rw [head?_pyJoin_cons w₀ rest (hwords w₀ (by simp)).1] at hc
        exact (hwords w₀ (by simp)).2 c (List.mem_of_mem_head? hc)
      · obtain ⟨d, hd1, w, hw, hdw⟩ :=
          getLast?_pyJoin_mem (w₀ :: rest) (by simp) fun w hw => (hwords w hw).1
        rw [hd1] at hc
        obtain rfl := Option.some_inj.mp hc
        exact (hwords w hw).2 _ hdw
    have hcollapse : collapseWs j = j := by
      refine collapseWs_eq_self (fun c hc hsp => ?_) ?_
      · rcases hjchars c hc with rfl | ⟨h1, _⟩
        · rfl
        · exact absurd hsp (by simp [good_not_space h1])
      · exact chain'_pyJoin _ hwords
    have hsub : subNonWord j = j := by
      refine subNonWord_eq_self fun c hc => ?_
      rcases hjchars c hc with rfl | ⟨h1, _⟩
      · decide
      · rcases Bool.or_eq_true_iff.mp h1 with h' | h' <;> simp [h']
    rw [refineWords, hlower, hstrip, hcollapse, hsub]
    exact pySplit_pyJoin _ hwords

theorem wf_research : WfW ["research".toList] := by
  intro w hw
  rcases List.mem_singleton.mp hw with rfl
  exact ⟨by decide, by decide⟩

theorem wf_append {ws vs : List (List Char)} (h1 : WfW ws) (h2 : WfW vs) :
    WfW (ws ++ vs) := by
  intro w hw
  rcases List.mem_append.mp hw with h' | h'
  · exact h1 w h'
  · exact h2 w h'

/-- Re-tokenizing a join with the literal `" research"` appended yields
the tokens plus a final `research` token. -/
theorem refineWords_pyJoin_append (ws : List (List Char)) (h : WfW ws) :
    refineWords (pyJoin [' '] ws ++ " research".toList) =
      ws ++ ["research".toList] := by
  cases hws : ws with
  | nil => decide
  | cons w₀ rest =>
    subst hws
    have h1 : pyJoin [' '] (w₀ :: rest) ++ " research".toList =
        pyJoin [' '] ((w₀ :: rest) ++ ["research".toList]) := by
      rw [pyJoin_append_single _ _ (by simp), List.append_assoc]
      rfl
    rw [h1]
    exact refineWords_pyJoin _ (wf_append h wf_research)

/-! ### Stop-word filtering and keyword lemmas -/

theorem wfWords_nonspace {ws : List (List Char)} (h : WfW ws) :
    ∀ w ∈ ws, w ≠ [] ∧ ∀ c ∈ w, pyIsSpace c = false :=
  fun w hw => ⟨(h w hw).1, fun c hc => good_not_space ((h w hw).2 c hc).1⟩

theorem filterStop_idem (ws : List (List Char)) :
    filterStop (filterStop ws) = filterStop ws := by
  by_cases h : ws.length > 5
  · have h1 : filterStop ws =
        ws.filter fun w => !stopWords.contains w || decide (w.length > 3) := by
      rw [filterStop, if_pos h]
    rw [h1]
    by_cases h2 : (ws.filter fun w => !stopWords.contains w ||
        decide (w.length > 3)).length > 5
    · rw [filterStop, if_pos h2, List.filter_filter]
      exact List.filter_congr fun w _ => Bool.and_self _
    · rw [filterStop, if_neg h2]
  · have h1 : filterStop ws = ws := by rw [filterStop, if_neg h]
    rw [h1]
    exact h1

theorem filterStop_wf {ws : List (List Char)} (h : WfW ws) :
    WfW (filterStop ws) := by
  intro w hw
  refine h w ?_
  by_cases h5 : ws.length > 5
  · rw [filterStop, if_pos h5] at hw
    exact (List.mem_filter.mp hw).1
  · rwa [filterStop, if_neg h5] at hw

theorem mem_filterStop_of_long {ws : List (List Char)} {w : List Char}
    (hw : w ∈ ws) (hl : w.length > 3) : w ∈ filterStop ws := by
  by_cases h5 : ws.length > 5
  · rw [filterStop, if_pos h5]
    exact List.mem_filter.mpr ⟨hw, by simp [hl]⟩
  · rwa [filterStop, if_neg h5]

theorem word_infix_pyJoin {w : List Char} :
    ∀ {ws : List (List Char)}, w ∈ ws → w <:+: pyJoin [' '] ws := by
  intro ws
  induction ws with
  | nil => intro h; simp at h
  | cons u ws ih =>
    intro h
    rcases List.mem_cons.mp h with rfl | h'
    · cases ws with
      | nil => exact List.infix_rfl
      | cons v vs =>
        rw [pyJoin_cons_cons, List.append_assoc]
        exact (List.prefix_append _ _).isInfix
    · cases ws with
      | nil => simp at h'
      | cons v vs =>
        rw [pyJoin_cons_cons]
        exact (ih h').trans (List.suffix_append _ _).isInfix

theorem containsSub_of_infix {n h : List Char} (hi : n <:+: h) :
    containsSub n h = true := by
  simp [containsSub, hi]

theorem hasAcademicKeyword_of_research_mem {ws : List (List Char)}
    (h : "research".toList ∈ ws) :
    hasAcademicKeyword (pyJoin [' '] ws) = true := by
  refine List.any_eq_true.mpr ⟨"research".toList, by decide, ?_⟩
  exact containsSub_of_infix (word_infix_pyJoin h)

theorem enhanceAcademic_of_hasKw {q : List Char}
    (h : hasAcademicKeyword q = true) : enhanceAcademic q = q := by
  rw [enhanceAcademic, if_neg]
  simp [h]

/-! ### Stabilization of `refine` after two applications -/

/-- Fixed-point lemma: a single-space join of well-formed,
filter-stable tokens that either contains an academic keyword or has at
least 8 tokens is a fixed point of `refine`. -/
theorem refine_fix (ws : List (List Char)) (hwf : WfW ws)
    (hstable : filterStop ws = ws)
    (hcond : hasAcademicKeyword (pyJoin [' '] ws) = true ∨ 8 ≤ ws.length) :
    refine (pyJoin [' '] ws) = pyJoin [' '] ws := by
  rw [refine, refineWords_pyJoin _ hwf, hstable]
  rcases hcond with h | h
  · exact enhanceAcademic_of_hasKw h
  · rw [enhanceAcademic, if_neg]
    rw [pySplit_pyJoin _ (wfWords_nonspace hwf)]
    simp
    omega

/-- After two applications, the refined query is a join of well-formed,
filter-stable tokens satisfying the no-append condition. -/
theorem refine_refine_form (q : List Char) :
    ∃ ws3, WfW ws3 ∧ filterStop ws3 = ws3 ∧
      (hasAcademicKeyword (pyJoin [' '] ws3) = true ∨ 8 ≤ ws3.length) ∧
      refine (refine q) = pyJoin [' '] ws3 := by
  have hwf' : WfW (filterStop (refineWords q)) :=
    filterStop_wf (refineWords_wf q)
  have hstable' : filterStop (filterStop (refineWords q)) =
      filterStop (refineWords q) := filterStop_idem _
  by_cases happ : (!hasAcademicKeyword (pyJoin [' '] (filterStop (refineWords q))) &&
      decide ((pySplit (pyJoin [' '] (filterStop (refineWords q)))).length < 8)) = true
  · -- the first application appended " research"
    have hq : refine q = pyJoin [' '] (filterStop (refineWords q)) ++
        " research".toList := by
      rw [refine, enhanceAcademic, if_pos happ]
    refine ⟨filterStop (filterStop (refineWords q) ++ ["research".toList]),
      filterStop_wf (wf_append hwf' wf_research), filterStop_idem _, ?_, ?_⟩
    · exact Or.inl (hasAcademicKeyword_of_research_mem
        (mem_filterStop_of_long (by simp) (by decide)))
    · rw [hq, refine, refineWords_pyJoin_append _ hwf']
      exact enhanceAcademic_of_hasKw (hasAcademicKeyword_of_research_mem
        (mem_filterStop_of_long (by simp) (by decide)))
  · -- the first application did not append
    have hq : refine q = pyJoin [' '] (filterStop (refineWords q)) := by
      rw [refine, enhanceAcademic, if_neg (by simpa using happ)]
    refine ⟨filterStop (refineWords q), hwf', hstable', ?_, ?_⟩
    · rw [Bool.and_eq_true, not_and_or] at happ
      rcases happ with h | h
      · exact Or.inl (by simpa using h)
      · refine Or.inr ?_
        rw [pySplit_pyJoin _ (wfWords_nonspace hwf')] at h
        simpa using Nat.le_of_not_lt (by simpa using h)
    · rw [hq, refine, refineWords_pyJoin _ hwf', hstable',
        enhanceAcademic, if_neg (by simpa using happ)]

/-! ### Character-level facts about `refine` outputs -/

theorem refine_chars (q : List Char) :
    ∀ c ∈ refine q,
      (pyIsWordChar c || pyIsSpace c || c = '-') = true ∧ pyToLower c = c := by
  intro c hc
  have hwf' : WfW (filterStop (refineWords q)) :=
    filterStop_wf (refineWords_wf q)
  have hres : ∀ d ∈ " research".toList,
      (pyIsWordChar d || pyIsSpace d || d = '-') = true ∧ pyToLower d = d := by
    decide
  have hjoin : ∀ d ∈ pyJoin [' '] (filterStop (refineWords q)),
      (pyIsWordChar d || pyIsSpace d || d = '-') = true ∧ pyToLower d = d := by
    intro d hd
    rcases mem_pyJoin_space _ hd with rfl | ⟨w, hw, hdw⟩
    · exact ⟨by decide, by decide⟩
    · obtain ⟨h1, h2⟩ := (hwf' w hw).2 d hdw
      refine ⟨?_, h2⟩
      rcases Bool.or_eq_true_iff.mp h1 with h' | h' <;> simp [h']
  rw [refine] at hc
  by_cases happ : (!hasAcademicKeyword (pyJoin [' '] (filterStop (refineWords q))) &&
      decide ((pySplit (pyJoin [' '] (filterStop (refineWords q)))).length < 8)) = true
  · rw [enhanceAcademic, if_pos happ] at hc
    rcases List.mem_append.mp hc with h' | h'
    · exact hjoin c h'
    · exact hres c h'
  · rw [enhanceAcademic, if_neg (by simpa using happ)] at hc
    exact hjoin c hc

theorem refine_chain' (q : List Char) :
    (refine q).Chain' fun a b => pyIsSpace a = false ∨ pyIsSpace b = false := by
  have hwf' : WfW (filterStop (refineWords q)) :=
    filterStop_wf (refineWords_wf q)
  have hchainj : (pyJoin [' '] (filterStop (refineWords q))).Chain'
      fun a b => pyIsSpace a = false ∨ pyIsSpace b = false :=
    chain'_pyJoin _ (wfWords_nonspace hwf')
  rw [refine]
  by_cases happ : (!hasAcademicKeyword (pyJoin [' '] (filterStop (refineWords q))) &&
      decide ((pySplit (pyJoin [' '] (filterStop (refineWords q)))).length < 8)) = true
  · rw [enhanceAcademic, if_pos happ]
    have hres : (" research".toList).Chain'
        fun a b => pyIsSpace a = false ∨ pyIsSpace b = false := by
      have hform : " research".toList = ' ' :: "research".toList := rfl
      rw [hform]
      refine List.chain'_cons'.mpr ⟨?_, chain'_of_all_nonspace (by decide)⟩
      intro y hy
      have hy' : 'r' = y := by simpa using hy
      subst hy'
      exact Or.inr (by decide)
    refine List.chain'_append.mpr ⟨hchainj, hres, ?_⟩
    intro x hx y _
    cases hws : filterStop (refineWords q) with
    | nil =>
      rw [hws] at hx
      simp [pyJoin] at hx
    | cons w rest =>
      rw [hws] at hx
      obtain ⟨d, hd1, w', hw', hdw'⟩ := getLast?_pyJoin_mem (w :: rest) (by simp)
        fun u hu => (wfWords_nonspace hwf' u (by rw [hws]; exact hu)).1
      rw [hd1] at hx
      obtain rfl := Option.some_inj.mp (by simpa using hx)
      exact Or.inl ((wfWords_nonspace hwf' w' (by rw [hws]; exact hw')).2 _ hdw')
  · rw [enhanceAcademic, if_neg (by simpa using happ)]
    exact hchainj

/-! ### Claim C2 -/

/-- C2 counterexample: `refine` is not idempotent.  For the empty
query the first application yields `" research"` (with a leading
space), while the second strips it to `"research"`. -/
theorem C2_counterexample :
    refine (refine ("".toList)) ≠ refine ("".toList) := by decide

/-- C2 (corrected): a single application of `refine` need not be a
fixed point, but the result stabilizes from the second application on:
`refine (refine (refine q)) = refine (refine q)` for every query. -/
theorem C2_refine_stable (q : List Char) :
    refine (refine (refine q)) = refine (refine q) := by
  obtain ⟨ws3, hwf, hs, hc, hr⟩ := refine_refine_form q
  rw [hr, refine_fix ws3 hwf hs hc]

/-! ### Claim C7 -/

/-- C7 counterexample: the refined query may contain an underscore,
which is neither alphanumeric, nor whitespace, nor a hyphen (the regex
class `\w` kept by the refiner includes `_`). -/
theorem C7_counterexample :
    '_' ∈ refine ("a_b".toList) ∧
      (Char.isAlphanum '_' || pyIsSpace '_' || decide ('_' = '-')) = false := by
  decide

/-- C7 (corrected): every character of the refined query is
alphanumeric, whitespace, a hyphen, or an underscore (not merely
alphanumeric/whitespace/hyphen as claimed); the result is lowercase
(fixed by lowercasing) and contains no two consecutive whitespace
characters. -/
theorem C7_refine_output_shape (q : List Char) :
    (∀ c ∈ refine q, pyToLower c = c) ∧
      ((refine q).Chain' fun a b => pyIsSpace a = false ∨ pyIsSpace b = false) ∧
      ∀ c ∈ refine q,
        (Char.isAlphanum c || pyIsSpace c || c = '-' || c = '_') = true := by
  refine ⟨fun c hc => (refine_chars q c hc).2, refine_chain' q, fun c hc => ?_⟩
  have h1 := (refine_chars q c hc).1
  rcases Bool.or_eq_true_iff.mp h1 with h' | h'
  · rcases Bool.or_eq_true_iff.mp h' with h'' | h''
    · rw [pyIsWordChar] at h''
      rcases Bool.or_eq_true_iff.mp h'' with h3 | h3 <;> simp [h3]
    · simp [h'']
  · simp [h']

/-- C7 witness: the shape theorem applied at a concrete query. -/
theorem C7_witness : pyToLower 'b' = 'b' :=
  (C7_refine_output_shape ("A  b!".toList)).1 'b' (by decide)

/-! ### Claim C9 -/

/-- C9: when the tokenization of the cleaned query has at most 5
tokens the stop-word filter is the identity, and when it has more than
5 tokens every stop-word token longer than 3 characters is kept. -/
theorem C9_stop_word_threshold (q : List Char) :
    ((refineWords q).length ≤ 5 → filterStop (refineWords q) = refineWords q) ∧
      ((refineWords q).length > 5 → ∀ w ∈ refineWords q,
        stopWords.contains w = true → w.length > 3 →
          w ∈ filterStop (refineWords q)) := by
  constructor
  · intro h
    rw [filterStop, if_neg (by omega)]
  · intro _ w hw _ hl
    exact mem_filterStop_of_long hw hl

/-- C9 witness: at a 7-token query the stop word `what` (length 4) is
kept, and at a 1-token query the filter is the identity. -/
theorem C9_witness :
    "what".toList ∈ filterStop (refineWords ("what is it like to run fast".toList)) ∧
      filterStop (refineWords ("run".toList)) = refineWords ("run".toList) :=
  ⟨(C9_stop_word_threshold _).2 (by decide) _ (by decide) (by decide) (by decide),
    (C9_stop_word_threshold _).1 (by decide)⟩

/-! ### Prompt templates (`src/utils/prompts.py`)

The f-string templates are transcribed verbatim; the apostrophe
character is spliced in as `apos` (codepoint 39). -/

/-- The ASCII apostrophe. -/
def apos : Char := Char.ofNat 39

/-- Fixed text of `get_summary_prompt` before the query. -/
def summaryPromptPre : List Char :=
  "\nYou are a research assistant helping to summarize academic papers.\n\nUser".toList
    ++ [apos] ++ "s Research Query: ".toList

/-- Fixed text of `get_summary_prompt` between query and papers. -/
def summaryPromptMid : List Char := "\n\nResearch Papers:\n".toList

/-- Fixed text of `get_summary_prompt` after the papers. -/
def summaryPromptPost : List Char :=
  "\n\nTask: Provide a comprehensive summary of these research papers in the context of the user".toList
    ++ [apos] ++ "s query.\nFocus on:\n1. Main findings and contributions\n2. Methodologies used\n3. Key results and conclusions\n4. Relevance to the user".toList
    ++ [apos] ++ "s query\n\nKeep the summary concise but informative (300-500 words).\n".toList

/-- `PromptTemplates.get_summary_prompt`. -/
def get_summary_prompt (query papers_text : List Char) : List Char :=
  summaryPromptPre ++ query ++ summaryPromptMid ++ papers_text ++ summaryPromptPost

/-- Fixed text of `get_gaps_prompt` before the query. -/
def gapsPromptPre : List Char :=
  "\nYou are a research analyst identifying gaps in current research.\n\nUser".toList
    ++ [apos] ++ "s Research Query: ".toList

/-- Fixed text of `get_gaps_prompt` between query and papers. -/
def gapsPromptMid : List Char := "\n\nResearch Papers:\n".toList

/-- Fixed text of `get_gaps_prompt` after the papers. -/
def gapsPromptPost : List Char :=
  "\n\nTask: Identify and list the research gaps based on these papers.\nConsider:\n1. Areas not adequately addressed\n2. Limitations mentioned by authors\n3. Future research directions suggested\n4. Missing perspectives or methodologies\n5. Contradictions or inconsistencies in findings\n\nProvide 5-7 specific research gaps as a numbered list.\nEach gap should be clear, specific, and actionable.\n".toList

/-- `PromptTemplates.get_gaps_prompt`. -/
def get_gaps_prompt (query papers_text : List Char) : List Char :=
  gapsPromptPre ++ query ++ gapsPromptMid ++ papers_text ++ gapsPromptPost

/-- The `level_descriptions` mapping of
`get_simplified_explanation_prompt`. -/
def levelDescriptions : List (List Char × List Char) :=
  [("high_school".toList, "a high school student with basic knowledge".toList),
   ("undergraduate".toList,
     "an undergraduate student with foundational knowledge".toList),
   ("graduate".toList, "a graduate student with advanced knowledge".toList),
   ("phd".toList, "a PhD researcher with expert-level knowledge".toList),
   ("general".toList, "a general audience with no specialized knowledge".toList)]

/-- `level_descriptions.get(education_level, "an undergraduate student")`. -/
def audienceFor (lvl : List Char) : List Char :=
  (levelDescriptions.lookup lvl).getD ("an undergraduate student".toList)

/-- The recognized education levels (the keys of `level_descriptions`). -/
def recognizedLevels : List (List Char) := levelDescriptions.map Prod.fst

/-- Fixed text of `get_simplified_explanation_prompt` before the query. -/
def explPromptPre : List Char :=
  "\nYou are an educator explaining research concepts.\n\nUser".toList
    ++ [apos] ++ "s Research Query: ".toList

/-- Fixed text between the query and the summary. -/
def explPromptMid1 : List Char := "\n\nResearch Summary:\n".toList

/-- Fixed text between the summary and the audience. -/
def explPromptMid2 : List Char := "\n\nTarget Audience: ".toList

/-- Fixed text between the two audience occurrences. -/
def explPromptMid3 : List Char :=
  "\n\nTask: Explain the research findings in a way that ".toList

/-- Fixed text after the second audience occurrence. -/
def explPromptPost : List Char :=
  " can understand.\n\nGuidelines:\n1. Use appropriate language complexity for the education level\n2. Include relevant examples or analogies\n3. Avoid jargon unless it".toList
    ++ [apos] ++ "s appropriate for the level (then define it)\n4. Focus on practical implications and real-world applications\n5. Keep it engaging and accessible\n\nProvide a clear, educational explanation (200-300 words).\n".toList

/-- `PromptTemplates.get_simplified_explanation_prompt`. -/
def get_simplified_explanation_prompt (query summary lvl : List Char) : List Char :=
  explPromptPre ++ query ++ explPromptMid1 ++ summary ++ explPromptMid2 ++
    audienceFor lvl ++ explPromptMid3 ++ audienceFor lvl ++ explPromptPost

/-! ### Claim C3 -/

set_option maxRecDepth 40000 in
/-- C3 counterexample: for the unrecognized level `expert` the
audience phrase is the bare default `"an undergraduate student"`, not
the undergraduate table entry
`"an undergraduate student with foundational knowledge"`, and the
table entry does not occur anywhere in the generated prompt. -/
theorem C3_counterexample :
    audienceFor ("expert".toList) ≠
      "an undergraduate student with foundational knowledge".toList ∧
      ¬("an undergraduate student with foundational knowledge".toList <:+:
        get_simplified_explanation_prompt [] [] ("expert".toList)) := by
  constructor
  · decide
  · decide

/-- C3 (corrected): for every education level outside the recognized
set, the audience phrase used in the simplified-explanation prompt is
the `dict.get` default `"an undergraduate student"` — not the phrase
the table maps `"undergraduate"` to. -/
theorem C3_unrecognized_level_audience (lvl : List Char)
    (h : lvl ∉ recognizedLevels) (q s : List Char) :
    audienceFor lvl = "an undergraduate student".toList ∧
      "an undergraduate student".toList <:+:
        get_simplified_explanation_prompt q s lvl := by
  have h' : lvl ≠ "high_school".toList ∧ lvl ≠ "undergraduate".toList ∧
      lvl ≠ "graduate".toList ∧ lvl ≠ "phd".toList ∧ lvl ≠ "general".toList := by
    simp only [recognizedLevels, levelDescriptions, List.map_cons, List.map_nil,
      List.mem_cons, not_or] at h
    simpa using h
  obtain ⟨h1, h2, h3, h4, h5⟩ := h'
  have hnone : levelDescriptions.lookup lvl = none := by
    rw [List.lookup_eq_none_iff]
    intro p hp
    simp only [levelDescriptions, List.mem_cons, List.not_mem_nil, or_false] at hp
    rcases hp with rfl | rfl | rfl | rfl | rfl <;>
      exact bne_iff_ne.mpr (by assumption)
  have ha : audienceFor lvl = "an undergraduate student".toList := by
    rw [audienceFor, hnone]
    rfl
  refine ⟨ha, ?_⟩
  refine ⟨explPromptPre ++ q ++ explPromptMid1 ++ s ++ explPromptMid2,
    explPromptMid3 ++ audienceFor lvl ++ explPromptPost, ?_⟩
  rw [get_simplified_explanation_prompt, ha]
  simp [List.append_assoc]

/-- C3 witness: the corrected statement applied at the concrete
unrecognized level `expert`. -/
theorem C3_witness :
    audienceFor ("expert".toList) = "an undergraduate student".toList :=
  (C3_unrecognized_level_audience ("expert".toList) (by decide) [] []).1

/-! ### Response extractor (`LLMProcessor._extract_research_gaps`, parsing part)

`gaps = [gap.strip() for gap in response.split('\n')
         if gap.strip() and gap.strip()[0].isdigit()]
 return gaps if gaps else [response]` -/

/-- The filter of the comprehension: the stripped line is non-empty
and its first character is a decimal digit. -/
def isGapLine (g : List Char) : Bool :=
  match pyStrip g with
  | [] => false
  | c :: _ => c.isDigit

/-- The parsing step of `_extract_research_gaps`. -/
def extractGaps (response : List Char) : List (List Char) :=
  let gaps := ((splitOnChar '\n' response).filter isGapLine).map pyStrip
  if gaps.isEmpty then [response] else gaps

/-- Spec-side description: the lines of the response whose trimmed
form is non-empty and begins with a digit, each trimmed, in original
order. -/
def digitLines (response : List Char) : List (List Char) :=
  ((splitOnChar '\n' response).map pyStrip).filter fun t =>
    match t with
    | [] => false
    | c :: _ => c.isDigit

theorem filter_comp_map {α β : Type} (f : α → β) (p : β → Bool) :
    ∀ l : List α, (l.map f).filter p = (l.filter fun a => p (f a)).map f := by
  intro l
  induction l with
  | nil => rfl
  | cons a l ih =>
    by_cases h : p (f a) = true
    · simp [List.filter_cons, h, ih]
    · have h' : p (f a) = false := by simp_all
      simp [List.filter_cons, h', ih]

/-! ### Claim C1 -/

/-- C1: the gap extractor returns exactly the lines whose trimmed form
is non-empty and begins with a digit, each trimmed, in original order;
when no such line exists it returns the single-element list holding
the whole untrimmed response; the result is never empty. -/
theorem C1_extract_gaps (response : List Char) :
    (digitLines response ≠ [] → extractGaps response = digitLines response) ∧
      (digitLines response = [] → extractGaps response = [response]) ∧
      extractGaps response ≠ [] := by
  have hcomm : digitLines response =
      ((splitOnChar '\n' response).filter isGapLine).map pyStrip := by
    rw [digitLines, filter_comp_map]
    rfl
  by_cases h : (((splitOnChar '\n' response).filter isGapLine).map pyStrip).isEmpty
  · have hnil : digitLines response = [] := by
      rw [hcomm]
      exact List.isEmpty_iff.mp h
    refine ⟨fun hne => absurd hnil hne, fun _ => ?_, ?_⟩
    · rw [extractGaps, if_pos h]
    · rw [extractGaps, if_pos h]
      simp
  · have h' : ((splitOnChar '\n' response).filter isGapLine).map pyStrip ≠ [] := by
      simpa [List.isEmpty_iff] using h
    refine ⟨fun _ => ?_, fun hnil => absurd (hcomm ▸ hnil) h', ?_⟩
    · rw [extractGaps, if_neg (by simpa [List.isEmpty_iff] using h'), hcomm]
    · rw [extractGaps, if_neg (by simpa [List.isEmpty_iff] using h')]
      exact h'

/-- C1 witness: the extractor applied to a response with two
enumerated lines and a trailing note, and to a response with no
digit-led line at all. -/
theorem C1_witness :
    extractGaps
        ("1. Lack of longitudinal data\n2. No cross-cultural studies\nNote: see appendix".toList) =
      ["1. Lack of longitudinal data".toList,
        "2. No cross-cultural studies".toList] ∧
      extractGaps ("The response had no list.".toList) =
        ["The response had no list.".toList] :=
  ⟨((C1_extract_gaps _).1 (by decide)).trans (by decide),
    (C1_extract_gaps _).2.1 (by decide)⟩

/-! ### Python values, exceptions, and dict access -/

/-- A Python value as it appears in the pipeline's dictionaries. -/
inductive PyVal where
  | vNone : PyVal
  | vStr : List Char → PyVal
  | vInt : Int → PyVal
  | vList : List PyVal → PyVal
  | vDict : List (List Char × PyVal) → PyVal

/-- The Python exceptions raised by the pipeline. -/
inductive PyError where
  | runtimeError : List Char → PyError
  | valueError : List Char → PyError
  | typeError : List Char → PyError
  | keyError : List Char → PyError
deriving DecidableEq

/-- Decimal rendering of an integer, as in an f-string. -/
def intRepr (n : Int) : List Char := (toString n).toList

/-- Decimal rendering of a natural number. -/
def natRepr (n : Nat) : List Char := (toString n).toList

/-- The opening brace, written as a codepoint to keep it out of string
literals. -/
def lbrace : Char := Char.ofNat 123

/-- The closing brace. -/
def rbrace : Char := Char.ofNat 125

mutual

/-- Python `repr` (as used by `str` on containers); string escaping is
not modelled. -/
def pyRepr : PyVal → List Char
  | .vNone => "None".toList
  | .vStr s => apos :: s ++ [apos]
  | .vInt n => intRepr n
  | .vList xs => '[' :: pyReprList xs ++ [']']
  | .vDict d => lbrace :: pyReprDict d ++ [rbrace]

/-- Comma-joined reprs of list items. -/
def pyReprList : List PyVal → List Char
  | [] => []
  | [x] => pyRepr x
  | x :: xs => pyRepr x ++ ", ".toList ++ pyReprList xs

/-- Comma-joined reprs of dict items. -/
def pyReprDict : List (List Char × PyVal) → List Char
  | [] => []
  | [(k, v)] => (apos :: k ++ [apos]) ++ ": ".toList ++ pyRepr v
  | (k, v) :: kvs =>
    (apos :: k ++ [apos]) ++ ": ".toList ++ pyRepr v ++ ", ".toList ++
      pyReprDict kvs

end

/-- Python `str(x)` as used by f-string interpolation. -/
def pyStr : PyVal → List Char
  | .vStr s => s
  | v => pyRepr v

/-- Python `d.get(k, default)`. -/
def pyDictGet (d : List (List Char × PyVal)) (k : List Char) (dflt : PyVal) :
    PyVal :=
  (d.lookup k).getD dflt

/-- Items of a Python list, all required to be strings (as
`str.join` demands). -/
def strItems : List PyVal → Except PyError (List (List Char))
  | [] => .ok []
  | .vStr s :: rest => (strItems rest).map fun ss => s :: ss
  | _ :: _ =>
    .error (.typeError ("sequence item: expected str instance".toList))

/-- Python `sep.join(v)`: requires `v` to be a list of strings. -/
def pyJoinStrs (sep : List Char) (v : PyVal) : Except PyError (List Char) :=
  match v with
  | .vList xs => (strItems xs).map fun ss => pyJoin sep ss
  | _ => .error (.typeError ("can only join an iterable".toList))

theorem strItems_map_vStr (ss : List (List Char)) :
    strItems (ss.map PyVal.vStr) = .ok ss := by
  induction ss with
  | nil => rfl
  | cons s ss ih => simp [strItems, ih, Except.map]

theorem pyJoinStrs_vStr_list (sep : List Char) (ss : List (List Char)) :
    pyJoinStrs sep (.vList (ss.map PyVal.vStr)) = .ok (pyJoin sep ss) := by
  simp [pyJoinStrs, strItems_map_vStr, Except.map]

/-! ### Papers (`src/routers/ai_routes.py` `Paper` model) and
`LLMProcessor._format_papers` -/

/-- The route's pydantic `Paper` model. -/
structure Paper where
  title : List Char
  abstract : List Char
  authors : List (List Char)
  year : Option Int
  url : Option (List Char)

/-- An optional integer field as serialized by pydantic `.dict()`. -/
def optIntVal : Option Int → PyVal
  | some n => .vInt n
  | none => .vNone

/-- An optional string field as serialized by pydantic `.dict()`. -/
def optStrVal : Option (List Char) → PyVal
  | some s => .vStr s
  | none => .vNone

/-- Pydantic `.dict()` on the route's `Paper` model: every field is
present as a key; an absent optional appears with value `None`. -/
def Paper.toDict (p : Paper) : List (List Char × PyVal) :=
  [("title".toList, .vStr p.title), ("abstract".toList, .vStr p.abstract),
   ("authors".toList, .vList (p.authors.map PyVal.vStr)),
   ("year".toList, optIntVal p.year), ("url".toList, optStrVal p.url)]

/-- One entry of `_format_papers`:
`f"Paper {i}:\nTitle: {...}\nAbstract: {...}\nAuthors: {', '.join(...)}\nYear: {...}\n"`. -/
def format_paper_entry (i : Nat) (pd : List (List Char × PyVal)) :
    Except PyError (List Char) := do
  let authors ← pyJoinStrs (", ".toList) (pyDictGet pd ("authors".toList) (.vList []))
  Except.ok ("Paper ".toList ++ natRepr i ++ ":\n".toList ++
    "Title: ".toList ++ pyStr (pyDictGet pd ("title".toList) (.vStr ("N/A".toList))) ++
    "\nAbstract: ".toList ++ pyStr (pyDictGet pd ("abstract".toList) (.vStr ("N/A".toList))) ++
    "\nAuthors: ".toList ++ authors ++
    "\nYear: ".toList ++ pyStr (pyDictGet pd ("year".toList) (.vStr ("N/A".toList))) ++
    "\n".toList)

/-- The `enumerate(papers, 1)` loop of `_format_papers`. -/
def formatEntriesFrom (i : Nat) :
    List (List (List Char × PyVal)) → Except PyError (List (List Char))
  | [] => .ok []
  | pd :: rest => do
    let e ← format_paper_entry i pd
    let es ← formatEntriesFrom (i + 1) rest
    .ok (e :: es)

/-- `LLMProcessor._format_papers`: numbered entries joined by blank
lines. -/
def format_papers (papers : List (List (List Char × PyVal))) :
    Except PyError (List Char) := do
  let entries ← formatEntriesFrom 1 papers
  .ok (pyJoin ("\n\n".toList) entries)

/-- The authors value of the paper dict is a list of strings (always
true for dicts produced by `Paper.toDict`). -/
def AuthorsOk (pd : List (List Char × PyVal)) : Prop :=
  ∃ ss : List (List Char),
    pyDictGet pd ("authors".toList) (.vList []) = .vList (ss.map PyVal.vStr)

/-- The comma-joined authors of a paper dict whose authors value is a
list of strings. -/
def joinedAuthors (pd : List (List Char × PyVal)) : List Char :=
  match pyDictGet pd ("authors".toList) (.vList []) with
  | .vList xs =>
    pyJoin (", ".toList)
      (xs.map fun x => match x with | .vStr s => s | _ => [])
  | _ => []

/-- Pure form of one formatted entry, used to state what
`_format_papers` produces. -/
def paperEntryStr (i : Nat) (pd : List (List Char × PyVal)) : List Char :=
  "Paper ".toList ++ natRepr i ++ ":\n".toList ++
    "Title: ".toList ++ pyStr (pyDictGet pd ("title".toList) (.vStr ("N/A".toList))) ++
    "\nAbstract: ".toList ++ pyStr (pyDictGet pd ("abstract".toList) (.vStr ("N/A".toList))) ++
    "\nAuthors: ".toList ++ joinedAuthors pd ++
    "\nYear: ".toList ++ pyStr (pyDictGet pd ("year".toList) (.vStr ("N/A".toList))) ++
    "\n".toList

/-- Pure form of the numbered entry list. -/
def paperEntriesStr (i : Nat) :
    List (List (List Char × PyVal)) → List (List Char)
  | [] => []
  | pd :: rest => paperEntryStr i pd :: paperEntriesStr (i + 1) rest

theorem format_paper_entry_ok {pd : List (List Char × PyVal)} (h : AuthorsOk pd)
    (i : Nat) : format_paper_entry i pd = .ok (paperEntryStr i pd) := by
  obtain ⟨ss, hss⟩ := h
  have h2 : ∀ tt : List (List Char), ((tt.map PyVal.vStr).map fun x =>
      match x with | PyVal.vStr s => s | _ => ([] : List Char)) = tt := by
    intro tt
    induction tt with
    | nil => rfl
    | cons a t iht =>
      show a :: ((t.map PyVal.vStr).map fun x =>
        match x with | PyVal.vStr s => s | _ => ([] : List Char)) = a :: t
      rw [iht]
  have hj : joinedAuthors pd = pyJoin (", ".toList) ss := by
    rw [joinedAuthors, hss]
    show pyJoin (", ".toList) ((ss.map PyVal.vStr).map fun x =>
      match x with | PyVal.vStr s => s | _ => ([] : List Char)) = _
    rw [h2 ss]
  rw [format_paper_entry, hss, pyJoinStrs_vStr_list, paperEntryStr, hj]
  rfl

theorem formatEntriesFrom_ok {papers : List (List (List Char × PyVal))}
    (h : ∀ pd ∈ papers, AuthorsOk pd) :
    ∀ i, formatEntriesFrom i papers = .ok (paperEntriesStr i papers) := by
  induction papers with
  | nil => intro i; rfl
  | cons pd rest ih =>
    intro i
    rw [formatEntriesFrom, format_paper_entry_ok (h pd (by simp)) i]
    rw [show (paperEntriesStr i (pd :: rest)) =
      paperEntryStr i pd :: paperEntriesStr (i + 1) rest from rfl]
    simp only [Bind.bind, Except.bind]
    rw [ih fun q hq => h q (by simp [hq])]

theorem paperEntriesStr_length (papers : List (List (List Char × PyVal))) :
    ∀ i, (paperEntriesStr i papers).length = papers.length := by
  induction papers with
  | nil => intro i; rfl
  | cons pd rest ih => intro i; simp [paperEntriesStr, ih]

theorem paperEntriesStr_getElem (papers : List (List (List Char × PyVal))) :
    ∀ i k, (paperEntriesStr i papers)[k]? =
      (papers[k]?).map fun pd => paperEntryStr (i + k) pd := by
  induction papers with
  | nil => intro i k; simp [paperEntriesStr]
  | cons pd rest ih =>
    intro i k
    cases k with
    | zero => simp [paperEntriesStr]
    | succ k =>
      rw [show paperEntriesStr i (pd :: rest) =
        paperEntryStr i pd :: paperEntriesStr (i + 1) rest from rfl]
      simp only [List.getElem?_cons_succ]
      rw [ih (i + 1) k, show i + 1 + k = i + (k + 1) from by omega]

/-! ### Claim C8 -/

/-- C8 counterexample: a route `Paper` without a year serializes with
`year = None` (pydantic `.dict()` keeps the key), so the rendered
entry shows `Year: None`, not `Year: N/A` — the literal `N/A` does not
occur at all. -/
theorem C8_counterexample :
    format_papers
        [Paper.toDict ⟨"T".toList, "A".toList, [], none, none⟩] =
      Except.ok ("Paper 1:\nTitle: T\nAbstract: A\nAuthors: \nYear: None\n".toList) ∧
      ("Year: None".toList <:+:
        "Paper 1:\nTitle: T\nAbstract: A\nAuthors: \nYear: None\n".toList) ∧
      ¬("N/A".toList <:+:
        "Paper 1:\nTitle: T\nAbstract: A\nAuthors: \nYear: None\n".toList) := by
  refine ⟨rfl, by decide, by decide⟩

/-- C8 (corrected): for papers whose authors value is a string list,
the rendered context is the blank-line join of exactly one entry per
paper, 1-indexed in input order, each entry listing title, abstract,
comma-joined authors (safe for an empty author list) and year; the
literal `N/A` is used for the year only when the `year` key is absent
from the paper mapping, while a route `Paper` without a year carries
`year = None` and renders as `None`. -/
theorem C8_format_papers_shape (papers : List (List (List Char × PyVal)))
    (h : ∀ pd ∈ papers, AuthorsOk pd) :
    format_papers papers = .ok (pyJoin ("\n\n".toList) (paperEntriesStr 1 papers)) ∧
      (paperEntriesStr 1 papers).length = papers.length ∧
      (∀ k, (paperEntriesStr 1 papers)[k]? =
        (papers[k]?).map fun pd => paperEntryStr (k + 1) pd) ∧
      (∀ pd : List (List Char × PyVal), pd.lookup ("year".toList) = none →
        pyStr (pyDictGet pd ("year".toList) (.vStr ("N/A".toList))) = "N/A".toList) ∧
      (∀ pd : List (List Char × PyVal), pd.lookup ("year".toList) = some .vNone →
        pyStr (pyDictGet pd ("year".toList) (.vStr ("N/A".toList))) = "None".toList) := by
  refine ⟨?_, paperEntriesStr_length papers 1, ?_, ?_, ?_⟩
  · rw [format_papers, formatEntriesFrom_ok h 1]
    rfl
  · intro k
    rw [paperEntriesStr_getElem papers 1 k,
      show 1 + k = k + 1 from by omega]
  · intro pd hpd
    rw [pyDictGet, hpd]
    rfl
  · intro pd hpd
    rw [pyDictGet, hpd]
    rfl

/-- C8 witness: the shape theorem applied to two concrete papers, one
with a year and authors and one without. -/
theorem C8_witness :
    format_papers
        [Paper.toDict ⟨"T1".toList, "A1".toList, ["x".toList, "y".toList], some 2020, none⟩,
          Paper.toDict ⟨"T2".toList, "A2".toList, [], none, none⟩] =
      Except.ok
        ("Paper 1:\nTitle: T1\nAbstract: A1\nAuthors: x, y\nYear: 2020\n\n\nPaper 2:\nTitle: T2\nAbstract: A2\nAuthors: \nYear: None\n".toList) :=
  ((C8_format_papers_shape _ (by
    intro pd hpd
    rcases List.mem_cons.mp hpd with rfl | hpd
    · exact ⟨["x".toList, "y".toList], rfl⟩
    rcases List.mem_cons.mp hpd with rfl | hpd
    · exact ⟨[], rfl⟩
    · simp at hpd)).1).trans (by rfl)

/-! ### Model gateway and orchestrator (`src/services/llm_processor.py`)

The backend clients are abstracted: a processor carries an optional
client handle (absent in the degraded state, exactly as after a failed
`_init_gemini`/`_init_openai`) and the backend behaviours
(`client.generate_content(...).text`,
`client.chat.completions.create(...)`) as oracle functions. -/

/-- The `LLMProcessor` instance state after construction. -/
structure LLMProcessor (γ : Type) where
  provider : List Char
  client : Option γ
  geminiGenerate : γ → List Char → Except PyError (List Char)
  openaiChat : γ → List Char → Except PyError (List Char)

/-- `LLMProcessor._call_gemini`. -/
def call_gemini {γ : Type} (p : LLMProcessor γ) (prompt : List Char) :
    Except PyError (List Char) :=
  match p.client with
  | none => .error (.runtimeError ("Gemini client not initialized".toList))
  | some c => p.geminiGenerate c prompt

/-- `LLMProcessor._call_openai`. -/
def call_openai {γ : Type} (p : LLMProcessor γ) (prompt : List Char) :
    Except PyError (List Char) :=
  match p.client with
  | none => .error (.runtimeError ("OpenAI client not initialized".toList))
  | some c => p.openaiChat c prompt

/-- `LLMProcessor._call_llm` (its `try`/`except` logs and re-raises,
so it is the identity on failures). -/
def call_llm {γ : Type} (p : LLMProcessor γ) (prompt : List Char) :
    Except PyError (List Char) :=
  if p.provider = "gemini".toList then call_gemini p prompt
  else if p.provider = "openai".toList then call_openai p prompt
  else .error (.valueError ("Unsupported LLM provider: ".toList ++ p.provider))

/-- The record assembled by `analyze_papers`. -/
structure AnalysisRecord where
  summary : List Char
  research_gaps : List (List Char)
  simplified_explanation : List Char
  education_level : List Char
deriving DecidableEq

/-- `LLMProcessor.analyze_papers` (its `try`/`except` logs and
re-raises, so it is the identity on failures). -/
def analyze_papers {γ : Type} (p : LLMProcessor γ) (query : List Char)
    (papers : List (List (List Char × PyVal))) (education_level : List Char) :
    Except PyError AnalysisRecord := do
  let papers_text ← format_papers papers
  let summary ← call_llm p (get_summary_prompt query papers_text)
  let gapsResponse ← call_llm p (get_gaps_prompt query papers_text)
  let research_gaps := extractGaps gapsResponse
  let simplified_explanation ←
    call_llm p (get_simplified_explanation_prompt query summary education_level)
  Except.ok ⟨summary, research_gaps, simplified_explanation, education_level⟩

/-! ### Claim C6 -/

/-- C6: with a recognized provider but no backend client the gateway
fails with the client-not-initialized `RuntimeError` (the spec's
`BackendUnavailable`); with an unrecognized provider it fails with the
unsupported-provider `ValueError` (the spec's `UnsupportedProvider`). -/
theorem C6_gateway_failure_modes {γ : Type} (p : LLMProcessor γ)
    (prompt : List Char) :
    (p.client = none →
      (p.provider = "gemini".toList → call_llm p prompt =
        .error (.runtimeError ("Gemini client not initialized".toList))) ∧
      (p.provider = "openai".toList → call_llm p prompt =
        .error (.runtimeError ("OpenAI client not initialized".toList)))) ∧
    (p.provider ≠ "gemini".toList → p.provider ≠ "openai".toList →
      call_llm p prompt =
        .error (.valueError ("Unsupported LLM provider: ".toList ++ p.provider))) := by
  constructor
  · intro hc
    constructor
    · intro hp
      rw [call_llm, if_pos hp, call_gemini, hc]
    · intro hp
      have hne : p.provider ≠ "gemini".toList := by
        rw [hp]
        decide
      rw [call_llm, if_neg hne, if_pos hp, call_openai, hc]
  · intro h1 h2
    rw [call_llm, if_neg h1, if_neg h2]

/-- A degraded-state gateway configured for Gemini. -/
def gwDegraded : LLMProcessor Unit :=
  ⟨"gemini".toList, none, fun _ _ => .ok [], fun _ _ => .ok []⟩

/-- A gateway configured with an unrecognized provider tag. -/
def gwUnknown : LLMProcessor Unit :=
  ⟨"cohere".toList, some (), fun _ _ => .ok [], fun _ _ => .ok []⟩

/-- C6 witness: both failure modes at concrete gateways. -/
theorem C6_witness :
    call_llm gwDegraded ("hi".toList) =
        .error (.runtimeError ("Gemini client not initialized".toList)) ∧
      call_llm gwUnknown ("hi".toList) =
        .error (.valueError ("Unsupported LLM provider: ".toList ++ "cohere".toList)) :=
  ⟨((C6_gateway_failure_modes gwDegraded ("hi".toList)).1 rfl).1 rfl,
    (C6_gateway_failure_modes gwUnknown ("hi".toList)).2 (by decide) (by decide)⟩

/-! ### Claim C5 -/

/-- C5: if any of the three gateway invocations fails, `analyze_papers`
fails with exactly that underlying error (the spec's `AnalysisFailed`
wrapping the cause), and a record is returned only when all three
invocations succeeded — never a partial one. -/
theorem C5_no_partial_analysis {γ : Type} (p : LLMProcessor γ) (q : List Char)
    (papers : List (List (List Char × PyVal))) (lvl : List Char) (pt : List Char)
    (hpt : format_papers papers = .ok pt) :
    (∀ e, call_llm p (get_summary_prompt q pt) = .error e →
      analyze_papers p q papers lvl = .error e) ∧
    (∀ s e, call_llm p (get_summary_prompt q pt) = .ok s →
      call_llm p (get_gaps_prompt q pt) = .error e →
      analyze_papers p q papers lvl = .error e) ∧
    (∀ s g e, call_llm p (get_summary_prompt q pt) = .ok s →
      call_llm p (get_gaps_prompt q pt) = .ok g →
      call_llm p (get_simplified_explanation_prompt q s lvl) = .error e →
      analyze_papers p q papers lvl = .error e) ∧
    (∀ rec, analyze_papers p q papers lvl = .ok rec →
      ∃ s g x, call_llm p (get_summary_prompt q pt) = .ok s ∧
        call_llm p (get_gaps_prompt q pt) = .ok g ∧
        call_llm p (get_simplified_explanation_prompt q s lvl) = .ok x ∧
        rec = ⟨s, extractGaps g, x, lvl⟩) := by
  refine ⟨?_, ?_, ?_, ?_⟩
  · intro e he
    simp [analyze_papers, hpt, he, Bind.bind, Except.bind]
  · intro s e hs he
    simp [analyze_papers, hpt, hs, he, Bind.bind, Except.bind]
  · intro s g e hs hg he
    simp [analyze_papers, hpt, hs, hg, he, Bind.bind, Except.bind]
  · intro rec hrec
    rw [analyze_papers] at hrec
    simp only [hpt, Bind.bind, Except.bind] at hrec
    cases hs : call_llm p (get_summary_prompt q pt) with
    | error e => exact absurd hrec (by simp [hs])
    | ok s =>
      simp only [hs] at hrec
      cases hg : call_llm p (get_gaps_prompt q pt) with
      | error e => exact absurd hrec (by simp [hs, hg])
      | ok g =>
        simp only [hg] at hrec
        cases hx : call_llm p (get_simplified_explanation_prompt q s lvl) with
        | error e => exact absurd hrec (by simp [hs, hg, hx])
        | ok x =>
          simp only [hx] at hrec
          refine ⟨s, g, x, rfl, rfl, hx, ?_⟩
          exact (Except.ok.inj hrec).symm

/-- C5 witness: with a degraded gateway the summary invocation fails
and the whole analysis surfaces exactly that error. -/
theorem C5_witness :
    analyze_papers gwDegraded ("q".toList) [] ("undergraduate".toList) =
      .error (.runtimeError ("Gemini client not initialized".toList)) :=
  (C5_no_partial_analysis gwDegraded ("q".toList) [] ("undergraduate".toList)
    [] rfl).1 _ rfl

/-! ### Claim C10 -/

/-- C10: a successful analysis carries the education level verbatim —
whatever string was passed in, recognized or not, is the
`education_level` field of the returned record. -/
theorem C10_education_level_verbatim {γ : Type} (p : LLMProcessor γ)
    (q : List Char) (papers : List (List (List Char × PyVal)))
    (lvl : List Char) (rec : AnalysisRecord)
    (h : analyze_papers p q papers lvl = .ok rec) :
    rec.education_level = lvl := by
  rw [analyze_papers] at h
  cases hpt : format_papers papers with
  | error e => exact absurd h (by simp [hpt, Bind.bind, Except.bind])
  | ok pt =>
    simp only [hpt, Bind.bind, Except.bind] at h
    cases hs : call_llm p (get_summary_prompt q pt) with
    | error e => exact absurd h (by simp [hs])
    | ok s =>
      simp only [hs] at h
      cases hg : call_llm p (get_gaps_prompt q pt) with
      | error e => exact absurd h (by simp [hs, hg])
      | ok g =>
        simp only [hg] at h
        cases hx : call_llm p (get_simplified_explanation_prompt q s lvl) with
        | error e => exact absurd h (by simp [hs, hg, hx])
        | ok x =>
          simp only [hx] at h
          rw [← Except.ok.inj h]

/-- A healthy gateway whose backend always answers `1. gap`. -/
def gwOk : LLMProcessor Unit :=
  ⟨"gemini".toList, some (),
    fun _ _ => .ok ("1. gap".toList), fun _ _ => .ok []⟩

/-- C10 witness: an unrecognized education level string comes back
verbatim from a successful analysis. -/
theorem C10_witness :
    AnalysisRecord.education_level
        ⟨"1. gap".toList, ["1. gap".toList], "1. gap".toList, "expert".toList⟩ =
      "expert".toList :=
  C10_education_level_verbatim gwOk ("q".toList) [] ("expert".toList) _ rfl

/-! ### Output formatter (`src/services/formatter.py`)

`format_analysis` builds the formatted dict with `dict.get` defaults,
attaches metadata (`datetime.utcnow().isoformat()` is passed in as
`nowIso`), then runs `_validate_output` on the formatted dict and
re-raises its failures. -/

/-- `required_fields` of `_validate_output`. -/
def requiredFields : List (List Char) :=
  ["summary".toList, "research_gaps".toList, "simplified_explanation".toList]

/-- Python `isinstance(v, list)`. -/
def isVList : PyVal → Bool
  | .vList _ => true
  | _ => false

/-- `OutputFormatter._validate_output`: raise on the first missing
required field, then require `research_gaps` to be a list. -/
def validate_output (output : List (List Char × PyVal)) : Except PyError Bool :=
  match requiredFields.find? fun f => (output.lookup f).isNone with
  | some f => .error (.valueError ("Missing required field: ".toList ++ f))
  | none =>
    match output.lookup ("research_gaps".toList) with
    | some v =>
      if isVList v then .ok true
      else .error (.valueError ("research_gaps must be a list".toList))
    | none => .error (.keyError ("research_gaps".toList))

/-- The `formatted` dict built by `format_analysis`. -/
def formattedOf (nowIso : List Char)
    (analysis_result : List (List Char × PyVal)) :
    List (List Char × PyVal) :=
  [("summary".toList, pyDictGet analysis_result ("summary".toList) (.vStr [])),
   ("research_gaps".toList,
     pyDictGet analysis_result ("research_gaps".toList) (.vList [])),
   ("simplified_explanation".toList,
     pyDictGet analysis_result ("simplified_explanation".toList) (.vStr [])),
   ("education_level".toList,
     pyDictGet analysis_result ("education_level".toList)
       (.vStr ("undergraduate".toList))),
   ("metadata".toList,
     .vDict [("processed_at".toList, .vStr nowIso),
       ("version".toList, .vStr ("1.0.0".toList))])]

/-- `OutputFormatter.format_analysis` (its `try`/`except` logs and
re-raises, so it is the identity on failures). -/
def format_analysis (nowIso : List Char)
    (analysis_result : List (List Char × PyVal)) :
    Except PyError (List (List Char × PyVal)) :=
  match validate_output (formattedOf nowIso analysis_result) with
  | .ok _ => .ok (formattedOf nowIso analysis_result)
  | .error e => .error e

/-- On the formatted dict every required field is present, so
validation reduces to the `isinstance(..., list)` check on the
`research_gaps` value. -/
theorem validate_output_formattedOf (nowIso : List Char)
    (ar : List (List Char × PyVal)) :
    validate_output (formattedOf nowIso ar) =
      if isVList (pyDictGet ar ("research_gaps".toList) (.vList [])) then
        .ok true
      else .error (.valueError ("research_gaps must be a list".toList)) :=
  rfl

/-! ### Claim C4 -/

/-- C4 counterexample: a record missing `summary`, `research_gaps` and
`simplified_explanation` altogether is not rejected — `format_analysis`
silently fills the defaults and returns a formatted record. -/
theorem C4_counterexample :
    format_analysis ("T".toList) [] =
      Except.ok
        [("summary".toList, .vStr []),
         ("research_gaps".toList, .vList []),
         ("simplified_explanation".toList, .vStr []),
         ("education_level".toList, .vStr ("undergraduate".toList)),
         ("metadata".toList,
           .vDict [("processed_at".toList, .vStr ("T".toList)),
             ("version".toList, .vStr ("1.0.0".toList))])] := rfl

/-- C4 (corrected): missing `summary`, `research_gaps` or
`simplified_explanation` never cause a failure — `format_analysis`
substitutes defaults (`""`, `[]`, `""`).  The formatter fails, naming
`research_gaps`, exactly when the input record carries a
`research_gaps` value that is not a sequence, and in that case no
formatted record is returned. -/
theorem C4_formatter_validation (nowIso : List Char)
    (ar : List (List Char × PyVal)) :
    (∀ v, ar.lookup ("research_gaps".toList) = some v → isVList v = false →
      format_analysis nowIso ar =
        .error (.valueError ("research_gaps must be a list".toList))) ∧
      ((ar.lookup ("research_gaps".toList) = none ∨
        ∃ xs, ar.lookup ("research_gaps".toList) = some (.vList xs)) →
        format_analysis nowIso ar = .ok (formattedOf nowIso ar)) := by
  constructor
  · intro v hv hnl
    rw [format_analysis, validate_output_formattedOf, pyDictGet, hv]
    simp [hnl]
  · intro hok
    rw [format_analysis, validate_output_formattedOf, pyDictGet]
    rcases hok with h | ⟨xs, h⟩
    · rw [h]
      rfl
    · rw [h]
      rfl

/-- C4 witness: a string-valued `research_gaps` is rejected with the
error naming the field, while a record with a proper list (but missing
`summary`) is accepted. -/
theorem C4_witness :
    format_analysis ("T".toList)
        [("research_gaps".toList, PyVal.vStr ("oops".toList))] =
      .error (.valueError ("research_gaps must be a list".toList)) ∧
      format_analysis ("T".toList)
          [("research_gaps".toList, PyVal.vList [])] =
        .ok (formattedOf ("T".toList)
          [("research_gaps".toList, PyVal.vList [])]) :=
  ⟨(C4_formatter_validation ("T".toList) _).1 _ rfl rfl,
    (C4_formatter_validation ("T".toList) _).2 (Or.inr ⟨[], rfl⟩)⟩

end RgAi
